import Mathlib

/-!
Verification of the envx-cli core orchestration logic: environment-file
discovery, passphrase resolution, batch (--all) processing, idempotent
encryption, and backup/restore behaviour, as shallow Lean embeddings of the
TypeScript sources.
-/

namespace EnvX

/-! Basic string machinery shared by the embeddings. -/

/-- UTF-16 code units of a character, used to model JavaScript's default
string comparison (which compares UTF-16 code units lexicographically). -/
def charUtf16 (c : Char) : List Nat :=
  if c.toNat < 0x10000 then [c.toNat]
  else [0xD800 + (c.toNat - 0x10000) / 0x400, 0xDC00 + (c.toNat - 0x10000) % 0x400]

/-- UTF-16 code units of a string. -/
def utf16 (s : String) : List Nat :=
  (s.data.map charUtf16).flatten

/-- Lexicographic comparison of code-unit lists. -/
def leUnits : List Nat → List Nat → Bool
  | [], _ => true
  | _ :: _, [] => false
  | a :: as, b :: bs => if a < b then true else if b < a then false else leUnits as bs

/-- The ordering JavaScript's default `Array.prototype.sort` applies to
strings: lexicographic on UTF-16 code units. -/
def jsLe (a b : String) : Bool :=
  leUnits (utf16 a) (utf16 b)

/-- Propositional form of `jsLe`, for use with `List.insertionSort`. -/
def jsLeR (a b : String) : Prop := jsLe a b = true

instance : DecidableRel jsLeR := fun a b =>
  inferInstanceAs (Decidable (jsLe a b = true))

/-! Environment discovery, embedding `findAllEnvironments` /
`findAvailableEnvironments` from the core test sources: each file name is
matched against the regular expression `^\.env\.([^.]+)(\.gpg)?$`, tokens
`example` and `template` are excluded, and the distinct tokens are returned
sorted. -/

/-- The characters of the literal `".env."`, the anchor of the discovery
regular expression. -/
def dotEnvDot : List Char := ".env.".data

/-- The characters of the literal `".gpg"`. -/
def gpgExt : List Char := ".gpg".data

/-- Match the part of a file name after `".env."` against `([^.]+)(\.gpg)?$`,
returning the captured token. -/
def parseRest (cs : List Char) : Option (List Char) :=
  if !cs.isEmpty && !cs.contains '.' then some cs
  else if gpgExt.isSuffixOf cs then
    if !(cs.take (cs.length - 4)).isEmpty && !(cs.take (cs.length - 4)).contains '.' then
      some (cs.take (cs.length - 4))
    else none
  else none

/-- Match a full file name against `^\.env\.([^.]+)(\.gpg)?$`. -/
def parseEnvToken (file : String) : Option String :=
  if dotEnvDot.isPrefixOf file.data then
    match parseRest (file.data.drop 5) with
    | some t => some ⟨t⟩
    | none => none
  else none

/-- The loop body of environment discovery: a matching token is added only
when it is neither `example` nor `template`. -/
def pickToken (f : String) : Option String :=
  match parseEnvToken f with
  | some t => if t ≠ "example" ∧ t ≠ "template" then some t else none
  | none => none

/-- Embedding of `findAllEnvironments(files)` from
`__tests__/core/all-flag.test.ts` (identical to `findAvailableEnvironments`
in `__tests__/core/commands.test.ts`): collect tokens of matching names,
skip `example` and `template`, deduplicate, sort. -/
def findAllEnvironments (files : List String) : List String :=
  ((files.filterMap pickToken).dedup).insertionSort jsLeR

/-! Passphrase resolution. The `.envrc` secrets file is modelled as an
association list; JavaScript truthiness of a string is non-emptiness. -/

/-- Association-list model of the parsed `.envrc` configuration
(`Record<string, string>`). -/
abbrev EnvrcConfig : Type := List (String × String)

/-- Object property lookup. -/
def lookupVar : EnvrcConfig → String → Option String
  | [], _ => none
  | (k, v) :: rest, key => if k = key then some v else lookupVar rest key

/-- JavaScript truthiness of a string value. -/
def truthyStr (s : String) : Bool := !s.isEmpty

/-- JavaScript truthiness of a possibly-absent string value. -/
def truthyOpt (o : Option String) : Bool :=
  match o with
  | some s => !s.isEmpty
  | none => false

/-- Model of JavaScript's `String.prototype.toUpperCase` (character-wise
upper-casing; the sources only apply it to ASCII environment names). -/
def jsToUpper (s : String) : String := ⟨s.data.map Char.toUpper⟩

/-- The `source` discriminator of a passphrase resolution
(`'provided' | 'custom-secret' | 'environment-secret' | 'prompt'`). -/
inductive PassSource
  | provided
  | customSecret
  | environmentSecret
  | prompt
deriving DecidableEq, Repr

/-- Result record of `resolvePassphraseForEnvironment`. -/
structure PassResolution where
  passphrase : Option String
  source : PassSource
  needsPrompt : Bool
deriving DecidableEq, Repr

/-- Embedding of `resolvePassphraseForEnvironment` from
`__tests__/core/all-flag.test.ts`: provided passphrase, then custom secret,
then `<ENV>_SECRET`, then prompt, each guard using JavaScript truthiness. -/
def resolvePassphraseForEnvironment (environment : String)
    (passphrase secret : Option String) (envrcConfig : EnvrcConfig) : PassResolution :=
  if truthyOpt passphrase then
    ⟨passphrase, .provided, false⟩
  else if truthyOpt secret && truthyOpt (secret.bind (lookupVar envrcConfig)) then
    ⟨secret.bind (lookupVar envrcConfig), .customSecret, false⟩
  else if truthyOpt (lookupVar envrcConfig (jsToUpper environment ++ "_SECRET")) then
    ⟨lookupVar envrcConfig (jsToUpper environment ++ "_SECRET"), .environmentSecret, false⟩
  else
    ⟨none, .prompt, true⟩

/-- Tier chain exactly as the claim words it: the custom-secret and
convention tiers are satisfied by mere key presence in the secrets map,
regardless of the stored value. Written for comparison with the code,
which additionally requires the stored value to be non-empty. -/
def presenceSource (environment : String) (passphrase secret : Option String)
    (cfg : EnvrcConfig) : PassSource :=
  if truthyOpt passphrase then .provided
  else if (match secret with | some k => (lookupVar cfg k).isSome | none => false) then
    .customSecret
  else if (lookupVar cfg (jsToUpper environment ++ "_SECRET")).isSome then .environmentSecret
  else .prompt

/-- Tier chain as amended: a secrets-map tier is satisfied when the key is
present with a non-empty value (and, for the custom tier, the key name
itself is non-empty). -/
def amendedSource (environment : String) (passphrase secret : Option String)
    (cfg : EnvrcConfig) : PassSource :=
  if truthyOpt passphrase then .provided
  else if (match secret with
           | some k => truthyStr k && truthyOpt (lookupVar cfg k)
           | none => false) then
    .customSecret
  else if truthyOpt (lookupVar cfg (jsToUpper environment ++ "_SECRET")) then .environmentSecret
  else .prompt

/-- UTF-16 code points JavaScript's `String.prototype.trim` removes
(WhiteSpace and LineTerminator). -/
def jsWhitespaceCodes : List Nat :=
  [9, 10, 11, 12, 13, 32, 160, 0x1680, 0x2000, 0x2001, 0x2002, 0x2003, 0x2004,
   0x2005, 0x2006, 0x2007, 0x2008, 0x2009, 0x200A, 0x2028, 0x2029, 0x202F,
   0x205F, 0x3000, 0xFEFF]

/-- Whether a character is removed by JavaScript's `trim`. -/
def jsWhitespace (c : Char) : Bool := jsWhitespaceCodes.contains c.toNat

/-- Model of JavaScript's `String.prototype.trim`. -/
def jsTrim (s : String) : String :=
  ⟨((s.data.dropWhile jsWhitespace).reverse.dropWhile jsWhitespace).reverse⟩

/-- Modelled from the spec: `FileUtils.generateSecretVariableName`
(src/utils/file.ts is not among the sources); the spec says the convention
variable is `uppercase(environmentName) + "_SECRET"`, and the unit tests in
the sources pin exactly this behaviour. -/
def generateSecretVariableName (environment : String) : String :=
  jsToUpper environment ++ "_SECRET"

/-- Embedding of the `.envrc` fallback chain that appears verbatim in both
`executeEncrypt` (encrypt command) and `executeDecrypt` (decrypt command):
custom `--secret` key first, then the convention variable, then an
interactive prompt (whose answer is the `promptResult` oracle). -/
def envrcChain (secret : Option String) (environment : String)
    (cfg : EnvrcConfig) (promptResult : String) : String :=
  if truthyOpt secret && truthyOpt (secret.bind (lookupVar cfg)) then
    (secret.bind (lookupVar cfg)).getD ""
  else if truthyOpt (lookupVar cfg (generateSecretVariableName environment)) then
    (lookupVar cfg (generateSecretVariableName environment)).getD ""
  else promptResult

/-- Embedding of the passphrase acquisition in the encrypt command's
`processSingleEnvironment`: `let passphrase = rawOptions.passphrase || ''`
followed by `if (!passphrase || passphrase.trim() === '')`. -/
def encryptResolvePassphrase (rawPassphrase secret : Option String)
    (environment : String) (cfg : EnvrcConfig) (promptResult : String) : String :=
  let passphrase := rawPassphrase.getD ""
  if passphrase = "" ∨ jsTrim passphrase = "" then
    envrcChain secret environment cfg promptResult
  else passphrase

/-- Embedding of the passphrase acquisition in the decrypt command's
`executeDecrypt`: `if (!passphrase)` only — no trim check. -/
def decryptResolvePassphrase (rawPassphrase secret : Option String)
    (environment : String) (cfg : EnvrcConfig) (promptResult : String) : String :=
  if truthyOpt rawPassphrase then rawPassphrase.getD ""
  else envrcChain secret environment cfg promptResult

/-- Secrets map for the C3 counterexample: the custom key is present but
stores the empty string, and the convention variable is present with a
non-empty value. -/
def presenceCfg : EnvrcConfig := [("CUSTOM", ""), ("PRODUCTION_SECRET", "prod-pass")]

/-- Secrets map for the C7 counterexample and witnesses. -/
def conventionOnlyCfg : EnvrcConfig := [("PRODUCTION_SECRET", "prod-pass")]

/-! File-system and external-tool model. File contents are modelled
algebraically: the external GPG binary is a symmetric cipher, so a
ciphertext remembers the passphrase it was produced with and the content it
encloses, and decryption succeeds exactly when the passphrases match. -/

/-- Content of a file: plaintext bytes, or a GPG ciphertext of some content. -/
inductive FileContent
  | plain (s : String)
  | cipher (pass : String) (body : FileContent)
deriving DecidableEq, Repr

/-- A file system: paths mapped to contents. -/
abbrev FS : Type := List (String × FileContent)

/-- File lookup. -/
def fsLookup : FS → String → Option FileContent
  | [], _ => none
  | (q, c) :: rest, p => if q = p then some c else fsLookup rest p

/-- Remove every binding of a path. -/
def fsRemove : FS → String → FS
  | [], _ => []
  | (q, c) :: rest, p => if q = p then fsRemove rest p else (q, c) :: fsRemove rest p

/-- Write a file, replacing any previous content. -/
def fsSet (fs : FS) (p : String) (c : FileContent) : FS :=
  (p, c) :: fsRemove fs p

/-- Model of `ExecUtils.decryptFile(encryptedPath, outputPath, passphrase)`:
succeeds and writes the enclosed content to the output path exactly when the
source is a ciphertext produced with the same passphrase; otherwise GPG
fails and nothing is written. -/
def decryptFileM (fs : FS) (encPath outPath pass : String) : FS × Bool :=
  match fsLookup fs encPath with
  | some (.cipher p b) => if p = pass then (fsSet fs outPath b, true) else (fs, false)
  | _ => (fs, false)

/-- External-world oracles for the encrypt/decrypt commands: tool
availability, the outcome of the `testGpgOperation` self-test, per-file
success of the external `gpg -c` invocation, and the interactive prompts. -/
structure ExtEnv where
  gpgAvailable : Bool
  gpgTestOk : String → Bool
  encryptOk : String → String → Bool
  promptPass : String → String
  confirm : Bool
  selectEnv : List String → String
  selectFiles : List String → List String
  envrc : EnvrcConfig

/-- Model of `ExecUtils.encryptFile(filePath, passphrase)`: when the source
file exists and the external tool succeeds, `<path>.gpg` is (over)written
with a ciphertext of the source content. -/
def encryptFileM (ext : ExtEnv) (fs : FS) (path pass : String) : FS × Bool :=
  match fsLookup fs path with
  | some c =>
    if ext.encryptOk path pass then (fsSet fs (path ++ ".gpg") (.cipher pass c), true)
    else (fs, false)
  | none => (fs, false)

/-- Observable actions of a per-file operation, in execution order. -/
inductive FileEvent
  | decryptInvoke (src dst : String)
  | encryptInvoke (path : String)
  | removeTemp (path : String)
  | createBackup (orig backupPath : String)
  | restoreBackup (backupPath target : String)
  | removeBackup (backupPath : String)
deriving DecidableEq, Repr

/-- Outcome of processing one file in the encrypt loop. -/
inductive EncFileOutcome
  | skipped
  | encrypted
  | failed
deriving DecidableEq, Repr

/-- The temporary decryption target used by the encrypt loop's comparison
step (`${envFile.path}.temp.${Date.now()}` in the source; the timestamp is
abstracted away). -/
def tempPathOf (path : String) : String := path ++ ".temp"

/-- Embedding of the per-file body of the encrypt loop
(`processSingleEnvironment` in the encrypt command): when a ciphertext
already exists, decrypt it to a temporary file and compare; skip when
identical, otherwise re-encrypt; no backup of the existing ciphertext is
ever taken. Returns the final file system, the outcome, and the events
in order. -/
def processEncryptFile (ext : ExtEnv) (fs : FS) (path pass : String) :
    FS × EncFileOutcome × List FileEvent :=
  let encryptedPath := path ++ ".gpg"
  if (fsLookup fs encryptedPath).isSome then
    let tempPath := tempPathOf path
    let dec := decryptFileM fs encryptedPath tempPath pass
    if dec.2 then
      let identical := fsLookup dec.1 path = fsLookup dec.1 tempPath
      let fs2 := if (fsLookup dec.1 tempPath).isSome then fsRemove dec.1 tempPath else dec.1
      if identical then
        (fs2, .skipped, [.decryptInvoke encryptedPath tempPath, .removeTemp tempPath])
      else
        let enc := encryptFileM ext fs2 path pass
        (enc.1, if enc.2 then .encrypted else .failed,
          [.decryptInvoke encryptedPath tempPath, .removeTemp tempPath, .encryptInvoke path])
    else
      let enc := encryptFileM ext dec.1 path pass
      (enc.1, if enc.2 then .encrypted else .failed,
        [.decryptInvoke encryptedPath tempPath, .encryptInvoke path])
  else
    let enc := encryptFileM ext fs path pass
    (enc.1, if enc.2 then .encrypted else .failed, [.encryptInvoke path])

/-- Outcome of processing one file in the decrypt loop. -/
inductive DecFileOutcome
  | succeeded
  | failed
deriving DecidableEq, Repr

/-- Modelled from the spec: `FileUtils.createBackup` (src/utils/file.ts is
not among the sources) creates a timestamped backup copy next to the file;
the timestamp is abstracted into a derived backup path. -/
def backupPathOf (path : String) : String := path ++ ".backup"

/-- Embedding of the per-file body of the decrypt loop (`executeDecrypt` in
the decrypt command): back up an existing plaintext target, decrypt the
ciphertext over it, then delete the backup on success or move the backup
back over the target on failure. -/
def processDecryptFile (fs : FS) (path pass : String) :
    FS × DecFileOutcome × List FileEvent :=
  let encryptedPath := path ++ ".gpg"
  match fsLookup fs path with
  | some orig =>
    let bp := backupPathOf path
    let fs1 := fsSet fs bp orig
    let dec := decryptFileM fs1 encryptedPath path pass
    if dec.2 then
      (fsRemove dec.1 bp, .succeeded,
        [.createBackup path bp, .decryptInvoke encryptedPath path, .removeBackup bp])
    else
      let fs3 := match fsLookup dec.1 bp with
        | some b => fsSet (fsRemove dec.1 bp) path b
        | none => dec.1
      (fs3, .failed,
        [.createBackup path bp, .decryptInvoke encryptedPath path, .restoreBackup bp path])
  | none =>
    let dec := decryptFileM fs encryptedPath path pass
    (dec.1, if dec.2 then .succeeded else .failed,
      [.decryptInvoke encryptedPath path])

/-- Concrete oracle for counterexamples and witnesses: GPG available, every
self-test and encryption succeeds, prompts answer `"PROMPTED"`, selections
take everything, confirmation says yes. -/
def extAllOk : ExtEnv :=
  ⟨true, fun _ => true, fun _ _ => true, fun _ => "PROMPTED", true, fun l => l.headD "",
   fun l => l, conventionOnlyCfg⟩

/-- File system for the C5 counterexample: the plaintext changed while an
older ciphertext (same passphrase, different content) is present. -/
def staleCipherFs : FS :=
  [(".env.production", .plain "new"), (".env.production.gpg", .cipher "pw" (.plain "old"))]

/-- The counting loop over the files of one environment in the encrypt
command: a skipped file and an encrypted file both increment the success
count, a failed file increments the error count. -/
def encryptFilesLoop (ext : ExtEnv) (fs : FS) (paths : List String) (pass : String) :
    FS × Nat × Nat :=
  paths.foldl
    (fun acc p =>
      match processEncryptFile ext acc.1 p pass with
      | (fs1, .skipped, _) => (fs1, acc.2.1 + 1, acc.2.2)
      | (fs1, .encrypted, _) => (fs1, acc.2.1 + 1, acc.2.2)
      | (fs1, .failed, _) => (fs1, acc.2.1, acc.2.2 + 1))
    (fs, 0, 0)

/-! Batch (--all) processing. -/

/-- Result of one per-environment operation (`{success, filesProcessed,
error?}`). -/
structure OpResult where
  success : Bool
  filesProcessed : Nat
  error : Option String
deriving DecidableEq, Repr

/-- Per-environment entry of the batch result list. -/
structure BatchItemResult where
  environment : String
  success : Bool
  filesProcessed : Nat
  error : Option String
deriving DecidableEq, Repr

/-- The per-item wrapper of `processBatchOperation` from
`__tests__/core/all-flag.test.ts`: a returned result is copied (with
`result.error || null` collapsing an empty error string to `null`), and a
thrown error is captured as a failed result carrying the error's message. -/
def wrapItem (env : String) (r : Except String OpResult) : BatchItemResult :=
  match r with
  | .ok res =>
    ⟨env, res.success, res.filesProcessed,
      match res.error with
      | some e => if e ≠ "" then some e else none
      | none => none⟩
  | .error msg => ⟨env, false, 0, some msg⟩

/-- Summary record of `processBatchOperation`. -/
structure BatchOpSummary where
  totalEnvironments : Nat
  successfulEnvironments : Nat
  failedEnvironments : Nat
  totalFilesProcessed : Nat
  overallSuccess : Bool
deriving DecidableEq, Repr

/-- Embedding of `processBatchOperation` from
`__tests__/core/all-flag.test.ts`: map each environment through its
operation with a per-item try/catch, then reduce into the summary. A
throwing operation is modelled as `Except.error` carrying the error
message. -/
def processBatchOperation (environments : List String)
    (getOperationResult : String → Except String OpResult) :
    List BatchItemResult × BatchOpSummary :=
  let results := environments.map fun env => wrapItem env (getOperationResult env)
  let successful := results.filter fun r => r.success
  let failed := results.filter fun r => !r.success
  let totalFiles := results.foldl (fun acc r => acc + r.filesProcessed) 0
  (results,
    ⟨environments.length, successful.length, failed.length, totalFiles,
      failed.length == 0⟩)

/-- Summary record of `generateAllEnvironmentsSummary`. -/
structure AllEnvSummary where
  operation : String
  totalEnvironments : Nat
  successful : Nat
  failed : Nat
  skipped : Nat
  totalFilesProcessed : Nat
  overallSuccess : Bool
  successfulEnvironments : List String
  failedEnvironments : List (String × Option String)
  skippedEnvironments : List String
  hasWarnings : Bool
  hasErrors : Bool
deriving DecidableEq, Repr

/-- Embedding of `generateAllEnvironmentsSummary` from
`__tests__/core/all-flag.test.ts`. -/
def generateAllEnvironmentsSummary (results : List BatchItemResult)
    (operation : String) : AllEnvSummary :=
  let successful := results.filter fun r => r.success
  let failed := results.filter fun r => !r.success
  let totalFiles := results.foldl (fun acc r => acc + r.filesProcessed) 0
  let skipped := results.filter fun r => r.success && r.filesProcessed == 0
  ⟨operation, results.length, successful.length, failed.length, skipped.length, totalFiles,
    failed.length == 0,
    successful.map fun r => r.environment,
    failed.map fun r => (r.environment, r.error),
    skipped.map fun r => r.environment,
    decide (skipped.length > 0),
    decide (failed.length > 0)⟩

/-! The encrypt command pipeline. -/

/-- Options record of the encrypt command (`rawOptions`). -/
structure EncryptOpts where
  all : Bool
  environment : Option String
  interactive : Bool
  passphrase : Option String
  secret : Option String
deriving Repr

/-- An `EnvFile` candidate: `path` is the plaintext path of the candidate,
`encrypted` selects the ciphertext variant, `present` whether that variant
exists on disk. -/
structure EnvFileC where
  path : String
  encrypted : Bool
  present : Bool
deriving DecidableEq, Repr

/-- The file names of a file system (the directory listing discovery
scans). -/
def fsFiles (fs : FS) : List String := fs.map fun e => e.1

/-- Modelled from the spec: `FileUtils.findEnvFiles` (src/utils/file.ts is
not among the sources); per the spec's data model, the candidates for an
environment are the plaintext `.env.<name>` and its `.env.<name>.gpg`
counterpart, two candidate paths for the same environment name. -/
def findEnvFilesM (fs : FS) (environment : String) : List EnvFileC :=
  [⟨".env." ++ environment, false, (fsLookup fs (".env." ++ environment)).isSome⟩,
   ⟨".env." ++ environment, true, (fsLookup fs (".env." ++ environment ++ ".gpg")).isSome⟩]

/-- Embedding of `processSingleEnvironment` in batch mode
(`isPartOfAll = true`): resolve the passphrase, run the GPG self-test (a
failure throws), collect the existing unencrypted files, and run the
per-file encrypt loop; schema validation, interactive selection and the
confirmation prompt are all skipped in batch mode. -/
def processSingleEnvironmentM (opts : EncryptOpts) (ext : ExtEnv) (fs : FS)
    (environment : String) : Except String (FS × Nat × Nat) :=
  let pass := encryptResolvePassphrase opts.passphrase opts.secret environment ext.envrc
    (ext.promptPass environment)
  if !ext.gpgTestOk pass then .error "GPG test failed"
  else
    let files := (findEnvFilesM fs environment).filter fun f => !f.encrypted && f.present
    if files.isEmpty then .ok (fs, 0, 0)
    else .ok (encryptFilesLoop ext fs (files.map fun f => f.path) pass)

/-- Embedding of `processSingleEnvironment` in solo mode
(`isPartOfAll = false`): additionally validates the options (non-empty
environment and passphrase), applies interactive file selection when
requested, and asks for confirmation otherwise. -/
def processSingleEnvironmentSolo (opts : EncryptOpts) (ext : ExtEnv) (fs : FS)
    (environment : String) : Except String (FS × Nat × Nat) :=
  let pass := encryptResolvePassphrase opts.passphrase opts.secret environment ext.envrc
    (ext.promptPass environment)
  if environment = "" then .error "Environment is required"
  else if pass = "" then .error "Passphrase is required"
  else if !ext.gpgTestOk pass then .error "GPG test failed"
  else
    let files := (findEnvFilesM fs environment).filter fun f => !f.encrypted && f.present
    if files.isEmpty then .ok (fs, 0, 0)
    else
      let filesToProcess :=
        if opts.interactive && files.length > 1 then
          files.filter fun f => (ext.selectFiles (files.map fun g => g.path)).contains f.path
        else files
      if filesToProcess.isEmpty then .ok (fs, 0, 0)
      else if !opts.interactive && !ext.confirm then .ok (fs, 0, 0)
      else .ok (encryptFilesLoop ext fs (filesToProcess.map fun f => f.path) pass)

/-- Per-environment line of the batch run's result list
(`{environment, success, errors}`). -/
structure PerEnvEntry where
  environment : String
  success : Nat
  errors : Nat
deriving DecidableEq, Repr

/-- Embedding of `processAllEnvironments` (encrypt command): process the
environments sequentially, catching a throw per item as
`{success: 0, errors: 1}`, and accumulate the result list in input order
together with the success and error totals. -/
def processAllEnvironmentsM (opts : EncryptOpts) (ext : ExtEnv) (fs : FS) :
    List String → FS × List PerEnvEntry × Nat × Nat
  | [] => (fs, [], 0, 0)
  | env :: rest =>
    match processSingleEnvironmentM opts ext fs env with
    | .ok (fs1, s, e) =>
      let r := processAllEnvironmentsM opts ext fs1 rest
      (r.1, ⟨env, s, e⟩ :: r.2.1, s + r.2.2.1, e + r.2.2.2)
    | .error _ =>
      let r := processAllEnvironmentsM opts ext fs rest
      (r.1, ⟨env, 0, 1⟩ :: r.2.1, r.2.2.1, 1 + r.2.2.2)

/-- Observable outcome of a command invocation: a thrown error (caught by
the action handler), an explicit `process.exit`, or normal completion; each
carries the file system at that point. -/
inductive CmdOutcome
  | threw (msg : String) (fs : FS)
  | exited (code : Nat) (fs : FS)
  | completed (fs : FS)
deriving DecidableEq, Repr

/-- Embedding of `executeEncrypt` (encrypt command): the --all flag
compatibility checks come first and throw before anything else runs; then
the GPG availability precondition (exit 1), environment discovery (plain
return when nothing is found), and either the batch loop (exit 1 when any
errors accumulated) or the single-environment flow. -/
def executeEncryptM (opts : EncryptOpts) (ext : ExtEnv) (fs : FS) : CmdOutcome :=
  if opts.all && truthyOpt opts.environment then
    .threw "Cannot use --all with --environment flag" fs
  else if opts.all && opts.interactive then
    .threw "Interactive mode is not compatible with --all flag" fs
  else if !ext.gpgAvailable then .exited 1 fs
  else
    let environments := findAllEnvironments (fsFiles fs)
    if environments.isEmpty then .completed fs
    else if opts.all then
      let r := processAllEnvironmentsM opts ext fs environments
      if r.2.2.2 > 0 then .exited 1 r.1 else .completed r.1
    else
      let environment :=
        match opts.environment with
        | some e =>
          if e ≠ "" then e
          else if environments.length == 1 then environments.headD ""
          else ext.selectEnv environments
        | none =>
          if environments.length == 1 then environments.headD ""
          else ext.selectEnv environments
      if !environments.contains environment then
        .threw "Environment not found" fs
      else
        match processSingleEnvironmentSolo opts ext fs environment with
        | .error msg => .threw msg fs
        | .ok (fs1, _, e) => if e > 0 then .exited 1 fs1 else .completed fs1

/-- Exit code of the encrypt command as observed by the shell: the action
handler catches a throw and exits 1, `process.exit` codes pass through, and
normal completion exits 0. -/
def encryptExitCode (opts : EncryptOpts) (ext : ExtEnv) (fs : FS) : Nat :=
  match executeEncryptM opts ext fs with
  | .threw _ _ => 1
  | .exited code _ => code
  | .completed _ => 0

/-- Options record of `validateAllFlagOptions`. -/
structure AllFlagOptions where
  all : Bool
  environment : Option String
  interactive : Bool
  passphrase : Option String
  secret : Option String
deriving Repr

/-- Result record of `validateAllFlagOptions`. -/
structure FlagValidation where
  valid : Bool
  errors : List String
  warnings : List String
deriving DecidableEq, Repr

/-- Embedding of `validateAllFlagOptions` from
`__tests__/core/all-flag.test.ts`: under --all, an explicit environment and
interactive mode are errors, and the absence of both a passphrase and a
secret is a warning; validity is the absence of errors. -/
def validateAllFlagOptions (o : AllFlagOptions) : FlagValidation :=
  let errors :=
    (if o.all && truthyOpt o.environment then
      ["Cannot specify both --all and --environment flags"]
     else []) ++
    (if o.all && o.interactive then
      ["Interactive mode is not compatible with --all flag"]
     else [])
  let warnings :=
    if o.all && !truthyOpt o.passphrase && !truthyOpt o.secret then
      ["Will prompt for passphrase for each environment without --passphrase or --secret"]
    else []
  ⟨errors.length == 0, errors, warnings⟩

/-- Operation oracle for the C1 witness: `beta` throws, everything else
succeeds with two files. -/
def batchWitnessOp : String → Except String OpResult :=
  fun env => if env = "beta" then .error "boom" else .ok ⟨true, 2, none⟩

/-- Oracles for the C8 witness: GPG present, the self-test fails exactly for
the passphrase `"bad"`, and the secrets file gives `alpha` a good passphrase
and `beta` the bad one. -/
def extMixed : ExtEnv :=
  ⟨true, fun p => p != "bad", fun _ _ => true, fun _ => "PROMPTED", true,
   fun l => l.headD "", fun l => l,
   [("ALPHA_SECRET", "good"), ("BETA_SECRET", "bad")]⟩

/-- Oracles with GPG unavailable, for the precondition witness. -/
def extNoGpg : ExtEnv :=
  ⟨false, fun _ => true, fun _ _ => true, fun _ => "PROMPTED", true,
   fun l => l.headD "", fun l => l, []⟩

/-- Two-environment file system for the C8 witness. -/
def demoFs : FS := [(".env.alpha", .plain "a"), (".env.beta", .plain "b")]

/-- Batch result list for the C8 summary witness: one failing entry. -/
def demoResults : List BatchItemResult :=
  [⟨"alpha", true, 2, none⟩, ⟨"beta", false, 0, some "boom"⟩]

/-! Environment-name validation and path conversions. -/

/-- A character of the environment-name alphabet (`[a-zA-Z0-9_-]`). -/
def isNameChar (c : Char) : Bool :=
  c.isAlpha || c.isDigit || c == '-' || c == '_'

/-- Whether a name matches `^[a-zA-Z][a-zA-Z0-9_-]*$`. -/
def matchesNamePattern (name : String) : Bool :=
  match name.data with
  | [] => false
  | c :: cs => c.isAlpha && cs.all isNameChar

/-- Result record of `validateEnvironmentName`. -/
structure NameValidation where
  valid : Bool
  error : Option String
deriving DecidableEq, Repr

/-- Embedding of `validateEnvironmentName` from
`__tests__/core/commands.test.ts` (the create workflow's validator): a
non-blank name matching `^[a-zA-Z][a-zA-Z0-9_-]*$` is required. -/
def validateEnvironmentName (name : String) : NameValidation :=
  if name = "" ∨ jsTrim name = "" then ⟨false, some "Environment name is required"⟩
  else if !matchesNamePattern name then ⟨false, some "Invalid environment name format"⟩
  else ⟨true, none⟩

/-- Modelled from the spec: `FileUtils.isValidEnvironmentName`
(src/utils/file.ts is not among the sources). The spec's data model allows
letters, digits, hyphen and underscore ("must start with a letter per most
validators" — a hedge this validator does not share), and the unit tests in
the sources pin that `"1"`, `"-"`, `"_"`, `"123env"`, `"-env"` and `"_env"`
are accepted while blanks and other special characters are rejected: any
non-empty string over the name alphabet is valid. -/
def isValidEnvironmentName (name : String) : Bool :=
  !name.isEmpty && name.data.all isNameChar

/-- Modelled from the spec: `FileUtils.getEncryptedPath` (src/utils/file.ts
is not among the sources) appends `".gpg"` to a path, as the spec's
file-operation wrapper describes (`expect it to produce <path>.gpg`) and
the unit tests pin. -/
def getEncryptedPath (p : String) : String := p ++ ".gpg"

/-- Modelled from the spec: `FileUtils.isEncryptedFile` tests a path for
the `".gpg"` suffix, as pinned by the unit tests in the sources. -/
def isEncryptedFile (q : String) : Bool := gpgExt.isSuffixOf q.data

/-- Modelled from the spec: `FileUtils.getDecryptedPath` strips exactly one
trailing `".gpg"`, as pinned by the unit tests in the sources
(`"file.gpg.gpg"` becomes `"file.gpg"`). -/
def getDecryptedPath (q : String) : String :=
  if gpgExt.isSuffixOf q.data then ⟨q.data.take (q.data.length - 4)⟩ else q

/-- Embedding of `getDecryptionOutputPath` from
`__tests__/core/commands.test.ts`: `encryptedFile.replace(/\.gpg$/, '')`. -/
def getDecryptionOutputPath (encryptedFile : String) : String :=
  if gpgExt.isSuffixOf encryptedFile.data then
    ⟨encryptedFile.data.take (encryptedFile.data.length - 4)⟩
  else encryptedFile

/-! Supporting lemmas about the string machinery. -/

theorem string_eq_iff_data {a b : String} : a = b ↔ a.data = b.data :=
  ⟨fun h => h ▸ rfl, fun h => by cases a; cases b; cases h; rfl⟩

theorem string_eq_empty_iff {a : String} : a = "" ↔ a.data = [] := by
  simpa using (string_eq_iff_data (a := a) (b := ""))

theorem leUnits_total : ∀ as bs : List Nat, leUnits as bs = true ∨ leUnits bs as = true := by
  intro as
  induction as with
  | nil => intro bs; left; rfl
  | cons a as ih =>
    intro bs
    cases bs with
    | nil => right; rfl
    | cons b bs =>
      rcases Nat.lt_trichotomy a b with h | h | h
      · left; simp [leUnits, h]
      · subst h
        rcases ih bs with h2 | h2
        · left; simp [leUnits, h2]
        · right; simp [leUnits, h2]
      · right; simp [leUnits, h]

theorem leUnits_trans : ∀ as bs cs : List Nat,
    leUnits as bs = true → leUnits bs cs = true → leUnits as cs = true := by
  intro as
  induction as with
  | nil => intro bs cs _ _; rfl
  | cons a as ih =>
    intro bs cs h1 h2
    cases bs with
    | nil => simp [leUnits] at h1
    | cons b bs =>
      cases cs with
      | nil => simp [leUnits] at h2
      | cons c cs =>
        simp only [leUnits] at h1 h2 ⊢
        rcases Nat.lt_trichotomy a b with hab | hab | hab
        · rcases Nat.lt_trichotomy b c with hbc | hbc | hbc
          · rw [if_pos (Nat.lt_trans hab hbc)]
          · subst hbc; rw [if_pos hab]
          · rw [if_neg (by omega), if_pos hbc] at h2; cases h2
        · subst hab
          rcases Nat.lt_trichotomy a c with hac | hac | hac
          · rw [if_pos hac]
          · subst hac
            rw [if_neg (Nat.lt_irrefl a), if_neg (Nat.lt_irrefl a)] at h1 h2 ⊢
            exact ih bs cs h1 h2
          · rw [if_neg (by omega), if_pos hac] at h2; cases h2
        · rw [if_neg (by omega), if_pos hab] at h1; cases h1

theorem jsLeR_isTotal : ∀ a b : String, jsLeR a b ∨ jsLeR b a := by
  intro a b; exact leUnits_total (utf16 a) (utf16 b)

theorem jsLeR_isTrans : ∀ a b c : String, jsLeR a b → jsLeR b c → jsLeR a c := by
  intro a b c h1 h2; exact leUnits_trans (utf16 a) (utf16 b) (utf16 c) h1 h2

/-! Correctness of the discovery pattern match. -/

theorem parseRest_eq_some {cs t : List Char} :
    parseRest cs = some t ↔
      (t ≠ [] ∧ t.contains '.' = false ∧ (cs = t ∨ cs = t ++ gpgExt)) := by
  constructor
  · intro h
    unfold parseRest at h
    split at h
    · rename_i hg
      simp only [Bool.and_eq_true, Bool.not_eq_true', List.isEmpty_eq_false] at hg
      obtain ⟨hne, hnd⟩ := hg
      cases h
      exact ⟨hne, hnd, Or.inl rfl⟩
    · split at h
      · rename_i hg hsuf
        have hsuf' : gpgExt <:+ cs := List.isSuffixOf_iff_suffix.mp hsuf
        obtain ⟨pre, hpre⟩ := hsuf'
        have hbase : cs.take (cs.length - 4) = pre := by
          rw [← hpre]
          have hlen : (pre ++ gpgExt).length - 4 = pre.length := by
            simp [List.length_append, gpgExt]
          rw [hlen, List.take_left]
        split at h
        · rename_i hb
          rw [hbase] at hb h
          simp only [Bool.and_eq_true, Bool.not_eq_true', List.isEmpty_eq_false] at hb
          cases h
          exact ⟨hb.1, hb.2, Or.inr hpre.symm⟩
        · cases h
      · cases h
  · rintro ⟨hne, hnd, hcs | hcs⟩
    · subst hcs
      unfold parseRest
      rw [if_pos]
      simp only [Bool.and_eq_true, Bool.not_eq_true', List.isEmpty_eq_false]
      exact ⟨hne, hnd⟩
    · subst hcs
      unfold parseRest
      have hdot : (t ++ gpgExt).contains '.' = true := by
        have hmem : ('.' : Char) ∈ t ++ gpgExt := by
          refine List.mem_append_right _ ?_
          simp [gpgExt]
        simpa using hmem
      rw [if_neg (by rw [hdot]; simp)]
      rw [if_pos (List.isSuffixOf_iff_suffix.mpr ⟨t, rfl⟩)]
      have hbase : (t ++ gpgExt).take ((t ++ gpgExt).length - 4) = t := by
        have hlen : (t ++ gpgExt).length - 4 = t.length := by
          simp [List.length_append, gpgExt]
        rw [hlen, List.take_left]
      rw [if_pos]
      · rw [hbase]
      · rw [hbase]
        simp only [Bool.and_eq_true, Bool.not_eq_true', List.isEmpty_eq_false]
        exact ⟨hne, hnd⟩

theorem parseEnvToken_eq_some {f t : String} :
    parseEnvToken f = some t ↔
      (t.data ≠ [] ∧ t.data.contains '.' = false ∧
        (f = ".env." ++ t ∨ f = ".env." ++ t ++ ".gpg")) := by
  constructor
  · intro h
    unfold parseEnvToken at h
    split at h
    · rename_i hpre
      have hpre' : dotEnvDot <+: f.data := List.isPrefixOf_iff_prefix.mp hpre
      obtain ⟨rest, hrest⟩ := hpre'
      have hdrop : f.data.drop 5 = rest := by
        rw [← hrest, show (5 : Nat) = dotEnvDot.length from rfl, List.drop_left]
      rw [hdrop] at h
      cases hp : parseRest rest with
      | none => rw [hp] at h; cases h
      | some t' =>
        rw [hp] at h
        cases h
        obtain ⟨hne, hnd, hshape⟩ := parseRest_eq_some.mp hp
        refine ⟨hne, hnd, ?_⟩
        rcases hshape with h1 | h1
        · left
          apply string_eq_iff_data.mpr
          rw [String.data_append, ← hrest, h1]
          rfl
        · right
          apply string_eq_iff_data.mpr
          rw [String.data_append, String.data_append, ← hrest, h1]
          simp [dotEnvDot, gpgExt]
    · cases h
  · rintro ⟨hne, hnd, hf | hf⟩
    · subst hf
      unfold parseEnvToken
      have hdata : (".env." ++ t).data = dotEnvDot ++ t.data := by
        rw [String.data_append]; rfl
      rw [if_pos (by rw [hdata]; exact List.isPrefixOf_iff_prefix.mpr ⟨t.data, rfl⟩)]
      have hdrop : (".env." ++ t).data.drop 5 = t.data := by
        rw [hdata, show (5 : Nat) = dotEnvDot.length from rfl, List.drop_left]
      rw [hdrop, parseRest_eq_some.mpr ⟨hne, hnd, Or.inl rfl⟩]
    · subst hf
      unfold parseEnvToken
      have hdata : (".env." ++ t ++ ".gpg").data = dotEnvDot ++ (t.data ++ gpgExt) := by
        rw [String.data_append, String.data_append]
        simp [dotEnvDot, gpgExt]
      rw [if_pos (by rw [hdata]; exact List.isPrefixOf_iff_prefix.mpr ⟨t.data ++ gpgExt, rfl⟩)]
      have hdrop : (".env." ++ t ++ ".gpg").data.drop 5 = t.data ++ gpgExt := by
        rw [hdata, show (5 : Nat) = dotEnvDot.length from rfl, List.drop_left]
      rw [hdrop, parseRest_eq_some.mpr ⟨hne, hnd, Or.inr rfl⟩]

theorem pickToken_eq_some {f t : String} :
    pickToken f = some t ↔
      (parseEnvToken f = some t ∧ t ≠ "example" ∧ t ≠ "template") := by
  unfold pickToken
  cases hp : parseEnvToken f with
  | none => simp
  | some t' =>
    constructor
    · intro h
      change (if t' ≠ "example" ∧ t' ≠ "template" then some t' else none) = some t at h
      by_cases hx : t' ≠ "example" ∧ t' ≠ "template"
      · rw [if_pos hx] at h
        injection h with ht
        subst ht
        exact ⟨rfl, hx⟩
      · rw [if_neg hx] at h
        cases h
    · rintro ⟨h1, h2⟩
      injection h1 with ht
      subst ht
      show (if t' ≠ "example" ∧ t' ≠ "template" then some t' else none) = some t'
      rw [if_pos h2]

/-- C2: for every list of file names, `findAllEnvironments` returns a sorted
(in JavaScript's default string order) and duplicate-free list, and a token
`t` is in the output exactly when `t` is a non-empty dot-free token other
than `example` and `template` such that some input file name is literally
`.env.<t>` or `.env.<t>.gpg`; in particular each environment appears at most
once even when both the plaintext and ciphertext variants are present. -/
theorem findAllEnvironments_sorted_dedup_spec (files : List String) :
    List.Sorted jsLeR (findAllEnvironments files) ∧
    (findAllEnvironments files).Nodup ∧
    (∀ t : String, t ∈ findAllEnvironments files ↔
      (t ≠ "" ∧ t.data.contains '.' = false ∧ t ≠ "example" ∧ t ≠ "template" ∧
        ((".env." ++ t) ∈ files ∨ (".env." ++ t ++ ".gpg") ∈ files))) := by
  refine ⟨?_, ?_, ?_⟩
  · haveI : IsTotal String jsLeR := ⟨jsLeR_isTotal⟩
    haveI : IsTrans String jsLeR := ⟨jsLeR_isTrans⟩
    exact List.sorted_insertionSort jsLeR _
  · exact (List.perm_insertionSort jsLeR _).nodup_iff.mpr (List.nodup_dedup _)
  · intro t
    rw [findAllEnvironments, List.mem_insertionSort, List.mem_dedup, List.mem_filterMap]
    constructor
    · rintro ⟨f, hf, hpick⟩
      obtain ⟨hparse, hex, htm⟩ := pickToken_eq_some.mp hpick
      obtain ⟨hne, hnd, hshape⟩ := parseEnvToken_eq_some.mp hparse
      refine ⟨fun h => hne (string_eq_empty_iff.mp h), hnd, hex, htm, ?_⟩
      rcases hshape with h | h
      · left; rwa [← h]
      · right; rwa [← h]
    · rintro ⟨hne, hnd, hex, htm, hin | hin⟩
      · exact ⟨".env." ++ t, hin,
          pickToken_eq_some.mpr
            ⟨parseEnvToken_eq_some.mpr
              ⟨fun h => hne (string_eq_empty_iff.mpr h), hnd, Or.inl rfl⟩, hex, htm⟩⟩
      · exact ⟨".env." ++ t ++ ".gpg", hin,
          pickToken_eq_some.mpr
            ⟨parseEnvToken_eq_some.mpr
              ⟨fun h => hne (string_eq_empty_iff.mpr h), hnd, Or.inr rfl⟩, hex, htm⟩⟩

/-! Passphrase resolution theorems. -/

theorem isEmpty_eq_false_of_ne {s : String} (h : s ≠ "") : s.isEmpty = false := by
  rw [Bool.eq_false_iff]
  intro hx
  exact h ((String.isEmpty_iff s).mp hx)

/-- C3 counterexample: with the custom key present in the secrets map but
bound to the empty string, and the convention variable present with a
non-empty value, the claim's presence-based tiers select the custom-secret
source, while the code falls through to the convention source — so the
claimed priority rule fails as stated. -/
theorem resolvePassphrase_presence_counterexample :
    presenceSource "production" none (some "CUSTOM") presenceCfg = PassSource.customSecret ∧
    (resolvePassphraseForEnvironment "production" none (some "CUSTOM") presenceCfg).source =
      PassSource.environmentSecret ∧
    PassSource.customSecret ≠ PassSource.environmentSecret := by
  decide

/-- C3 (amended): the resolution picks the highest-priority satisfiable
tier, where the explicit tier is satisfied by a non-empty passphrase and a
secrets-map tier is satisfied by a key present with a non-empty value; the
returned passphrase value and the needs-prompt flag come from that tier. -/
theorem resolvePassphrase_priority (env : String) (p s : Option String) (cfg : EnvrcConfig) :
    (resolvePassphraseForEnvironment env p s cfg).source = amendedSource env p s cfg ∧
    (resolvePassphraseForEnvironment env p s cfg).passphrase =
      (match amendedSource env p s cfg with
       | .provided => p
       | .customSecret => s.bind (lookupVar cfg)
       | .environmentSecret => lookupVar cfg (jsToUpper env ++ "_SECRET")
       | .prompt => none) ∧
    ((resolvePassphraseForEnvironment env p s cfg).needsPrompt = true ↔
      amendedSource env p s cfg = .prompt) := by
  unfold resolvePassphraseForEnvironment amendedSource
  have hsec : (truthyOpt s && truthyOpt (s.bind (lookupVar cfg))) =
      (match s with
       | some k => truthyStr k && truthyOpt (lookupVar cfg k)
       | none => false) := by
    cases s <;> rfl
  rw [hsec]
  cases hp : truthyOpt p <;>
    cases hcs : (match s with
      | some k => truthyStr k && truthyOpt (lookupVar cfg k)
      | none => false) <;>
    cases hconv : truthyOpt (lookupVar cfg (jsToUpper env ++ "_SECRET")) <;>
    simp [hp, hcs, hconv]

/-- C7 counterexample: for the whitespace-only explicit passphrase `" "`,
the decrypt command uses it verbatim, but the encrypt command's
`passphrase.trim() === ''` check discards it and falls through to the
`.envrc` convention secret — so the two commands do not behave identically
and encrypt does not use the provided string. -/
theorem whitespacePassphrase_counterexample :
    decryptResolvePassphrase (some " ") none "production" conventionOnlyCfg "PROMPTED" = " " ∧
    encryptResolvePassphrase (some " ") none "production" conventionOnlyCfg "PROMPTED" =
      "prod-pass" ∧
    (" " : String) ≠ "prod-pass" := by
  decide

/-- C7 (amended): the decrypt command uses any non-empty explicit
passphrase verbatim (whitespace-only included) without consulting the
secrets map or prompting; the encrypt command uses the explicit passphrase
only when its trim is non-empty, and a non-empty but whitespace-only value
falls through to the `.envrc` chain instead. -/
theorem explicitPassphrase_usage (p : String) (s : Option String) (env : String)
    (cfg : EnvrcConfig) (pr : String) :
    (p ≠ "" → decryptResolvePassphrase (some p) s env cfg pr = p) ∧
    (jsTrim p ≠ "" → encryptResolvePassphrase (some p) s env cfg pr = p) ∧
    (p ≠ "" → jsTrim p = "" →
      encryptResolvePassphrase (some p) s env cfg pr = envrcChain s env cfg pr) := by
  refine ⟨?_, ?_, ?_⟩
  · intro h
    unfold decryptResolvePassphrase
    rw [show truthyOpt (some p) = !p.isEmpty from rfl, isEmpty_eq_false_of_ne h]
    rfl
  · intro h
    show (if p = "" ∨ jsTrim p = "" then envrcChain s env cfg pr else p) = p
    have hne : ¬(p = "" ∨ jsTrim p = "") := by
      rintro (hx | hx)
      · exact h (by rw [hx]; rfl)
      · exact h hx
    rw [if_neg hne]
  · intro h1 h2
    show (if p = "" ∨ jsTrim p = "" then envrcChain s env cfg pr else p) =
      envrcChain s env cfg pr
    rw [if_pos (Or.inr h2)]

/-- Witness for the amended C7 theorem at concrete inputs. -/
theorem explicitPassphrase_usage_witness :
    decryptResolvePassphrase (some "hunter2") none "production" conventionOnlyCfg "PROMPTED" =
      "hunter2" ∧
    encryptResolvePassphrase (some "hunter2") none "production" conventionOnlyCfg "PROMPTED" =
      "hunter2" ∧
    encryptResolvePassphrase (some " ") none "production" conventionOnlyCfg "PROMPTED" =
      envrcChain none "production" conventionOnlyCfg "PROMPTED" :=
  ⟨(explicitPassphrase_usage "hunter2" none "production" conventionOnlyCfg "PROMPTED").1
      (by decide),
   (explicitPassphrase_usage "hunter2" none "production" conventionOnlyCfg "PROMPTED").2.1
      (by decide),
   (explicitPassphrase_usage " " none "production" conventionOnlyCfg "PROMPTED").2.2
      (by decide) (by decide)⟩

/-! File-system lemmas. -/

theorem fsLookup_set_self (fs : FS) (p : String) (c : FileContent) :
    fsLookup (fsSet fs p c) p = some c := by
  simp [fsSet, fsLookup]

theorem fsLookup_remove_ne (fs : FS) {p q : String} (h : p ≠ q) :
    fsLookup (fsRemove fs p) q = fsLookup fs q := by
  induction fs with
  | nil => rfl
  | cons e rest ih =>
    obtain ⟨k, v⟩ := e
    show fsLookup (if k = p then fsRemove rest p else (k, v) :: fsRemove rest p) q = _
    by_cases hk : k = p
    · subst hk
      rw [if_pos rfl, ih]
      show fsLookup rest q = if k = q then some v else fsLookup rest q
      rw [if_neg h]
    · rw [if_neg hk]
      show (if k = q then some v else fsLookup (fsRemove rest p) q) =
        (if k = q then some v else fsLookup rest q)
      rw [ih]

theorem fsLookup_set_ne (fs : FS) {p q : String} (c : FileContent) (h : p ≠ q) :
    fsLookup (fsSet fs p c) q = fsLookup fs q := by
  show (if p = q then some c else fsLookup (fsRemove fs p) q) = fsLookup fs q
  rw [if_neg h, fsLookup_remove_ne fs h]

theorem fsLookup_remove_self (fs : FS) (p : String) :
    fsLookup (fsRemove fs p) p = none := by
  induction fs with
  | nil => rfl
  | cons e rest ih =>
    obtain ⟨k, v⟩ := e
    show fsLookup (if k = p then fsRemove rest p else (k, v) :: fsRemove rest p) p = none
    by_cases hk : k = p
    · rw [if_pos hk]; exact ih
    · rw [if_neg hk]
      show (if k = p then some v else fsLookup (fsRemove rest p) p) = none
      rw [if_neg hk]; exact ih

theorem fsRemove_remove_self (fs : FS) (p : String) :
    fsRemove (fsRemove fs p) p = fsRemove fs p := by
  induction fs with
  | nil => rfl
  | cons e rest ih =>
    obtain ⟨k, v⟩ := e
    have hexp : fsRemove ((k, v) :: rest) p =
        if k = p then fsRemove rest p else (k, v) :: fsRemove rest p := rfl
    rw [hexp]
    by_cases hk : k = p
    · rw [if_pos hk]; exact ih
    · rw [if_neg hk]
      have hexp2 : fsRemove ((k, v) :: fsRemove rest p) p =
          if k = p then fsRemove (fsRemove rest p) p
          else (k, v) :: fsRemove (fsRemove rest p) p := rfl
      rw [hexp2, if_neg hk, ih]

theorem fsRemove_of_lookup_none (fs : FS) (p : String) (h : fsLookup fs p = none) :
    fsRemove fs p = fs := by
  induction fs with
  | nil => rfl
  | cons e rest ih =>
    obtain ⟨k, v⟩ := e
    have hk : ¬k = p := by
      intro hx
      rw [show fsLookup ((k, v) :: rest) p = if k = p then some v else fsLookup rest p
        from rfl, if_pos hx] at h
      cases h
    rw [show fsLookup ((k, v) :: rest) p = if k = p then some v else fsLookup rest p
      from rfl, if_neg hk] at h
    show (if k = p then fsRemove rest p else (k, v) :: fsRemove rest p) = (k, v) :: rest
    rw [if_neg hk, ih h]

theorem string_append_right_inj (s : String) {a b : String} :
    s ++ a = s ++ b ↔ a = b := by
  constructor
  · intro h
    have hd := string_eq_iff_data.mp h
    rw [String.data_append, String.data_append] at hd
    exact string_eq_iff_data.mpr (List.append_cancel_left hd)
  · rintro rfl; rfl

theorem string_ne_append_right {s t : String} (h : t ≠ "") : s ≠ s ++ t := by
  intro hx
  have h0 : s ++ "" = s := by
    apply string_eq_iff_data.mpr
    rw [String.data_append]
    simp
  rw [← h0] at hx
  nth_rewrite 2 [h0] at hx
  exact h ((string_append_right_inj s).mp hx).symm

theorem string_append_suffix_ne {s a b : String} (h : a ≠ b) : s ++ a ≠ s ++ b := by
  intro hx
  exact h ((string_append_right_inj s).mp hx)

theorem decryptFileM_fail {fs : FS} {a b p : String}
    (h : (decryptFileM fs a b p).2 = false) : (decryptFileM fs a b p).1 = fs := by
  unfold decryptFileM at h ⊢
  cases hl : fsLookup fs a with
  | none => rfl
  | some c =>
    rw [hl] at h
    cases c with
    | plain s => rfl
    | cipher q body =>
      change (if q = p then (fsSet fs b body, true) else (fs, false)).2 = false at h
      change (if q = p then (fsSet fs b body, true) else (fs, false)).1 = fs
      by_cases hq : q = p
      · rw [if_pos hq] at h; cases h
      · rw [if_neg hq]

/-! Idempotent encryption (C4) and backup protection (C5). -/

/-- C4: when the existing ciphertext decrypts (with the same passphrase) to
content identical to the current plaintext, the encrypt step skips
re-encryption: the file system is returned unchanged (in particular the
existing ciphertext is untouched), no `gpg -c` invocation happens, and the
per-environment loop still counts the file as a success. -/
theorem encrypt_idempotent_skip (ext : ExtEnv) (fs : FS) (path pass : String)
    (c : FileContent)
    (hsrc : fsLookup fs path = some c)
    (henc : fsLookup fs (path ++ ".gpg") = some (.cipher pass c))
    (htemp : fsLookup fs (tempPathOf path) = none)
    (hne : tempPathOf path ≠ path) :
    processEncryptFile ext fs path pass =
      (fs, .skipped,
        [.decryptInvoke (path ++ ".gpg") (tempPathOf path), .removeTemp (tempPathOf path)]) ∧
    encryptFilesLoop ext fs [path] pass = (fs, 1, 0) := by
  have hdec : decryptFileM fs (path ++ ".gpg") (tempPathOf path) pass =
      (fsSet fs (tempPathOf path) c, true) := by
    unfold decryptFileM
    rw [henc]
    show (if pass = pass then (fsSet fs (tempPathOf path) c, true) else (fs, false)) = _
    rw [if_pos rfl]
  have hlook_temp : fsLookup (fsSet fs (tempPathOf path) c) (tempPathOf path) = some c :=
    fsLookup_set_self fs (tempPathOf path) c
  have hlook_path : fsLookup (fsSet fs (tempPathOf path) c) path = some c := by
    rw [fsLookup_set_ne fs c hne]; exact hsrc
  have hclean : fsRemove (fsSet fs (tempPathOf path) c) (tempPathOf path) = fs := by
    show fsRemove ((tempPathOf path, c) :: fsRemove fs (tempPathOf path)) (tempPathOf path) = fs
    rw [show fsRemove ((tempPathOf path, c) :: fsRemove fs (tempPathOf path)) (tempPathOf path) =
        if tempPathOf path = tempPathOf path then
          fsRemove (fsRemove fs (tempPathOf path)) (tempPathOf path)
        else (tempPathOf path, c) :: fsRemove (fsRemove fs (tempPathOf path)) (tempPathOf path)
      from rfl, if_pos rfl, fsRemove_remove_self, fsRemove_of_lookup_none fs _ htemp]
  have hmain : processEncryptFile ext fs path pass =
      (fs, .skipped,
        [.decryptInvoke (path ++ ".gpg") (tempPathOf path), .removeTemp (tempPathOf path)]) := by
    simp only [processEncryptFile]
    rw [henc]
    simp only [Option.isSome_some, if_true, hdec]
    rw [if_pos (by rw [hlook_path, hlook_temp])]
    rw [hlook_temp]
    simp only [Option.isSome_some, if_true, hclean]
  refine ⟨hmain, ?_⟩
  unfold encryptFilesLoop
  simp only [List.foldl_cons, List.foldl_nil, hmain]

/-- C5 counterexample: encrypting over an existing, stale ciphertext
overwrites `.env.production.gpg` with no backup ever taken — the event
trace has no backup action and the original ciphertext content survives
nowhere in the resulting file system. This refutes the claim that every
destructively overwriting operation takes a restorable backup first. -/
theorem encrypt_overwrite_no_backup_counterexample :
    fsLookup staleCipherFs ".env.production.gpg" =
      some (.cipher "pw" (.plain "old")) ∧
    (processEncryptFile extAllOk staleCipherFs ".env.production" "pw").2.2 =
      [.decryptInvoke ".env.production.gpg" ".env.production.temp",
       .removeTemp ".env.production.temp",
       .encryptInvoke ".env.production"] ∧
    fsLookup (processEncryptFile extAllOk staleCipherFs ".env.production" "pw").1
      ".env.production.gpg" = some (.cipher "pw" (.plain "new")) ∧
    ((processEncryptFile extAllOk staleCipherFs ".env.production" "pw").1.all
      (fun e => e.2 ≠ FileContent.cipher "pw" (.plain "old"))) = true := by
  decide

/-- C5 (amended): the decrypt command's per-file operation protects an
existing plaintext target: the very first action is taking a backup (before
the external tool is invoked), a failed decryption leaves the target with
its original content, and the backup file is gone afterwards in both
outcomes (deleted on success, moved back over the target on failure). The
encrypt command, by contrast, overwrites an existing ciphertext without any
backup (see the counterexample). -/
theorem decrypt_backup_protocol (fs : FS) (path pass : String) (orig : FileContent)
    (h : fsLookup fs path = some orig) :
    ((processDecryptFile fs path pass).2.2).head? =
      some (.createBackup path (backupPathOf path)) ∧
    ((processDecryptFile fs path pass).2.1 = .failed →
      fsLookup (processDecryptFile fs path pass).1 path = some orig) ∧
    fsLookup (processDecryptFile fs path pass).1 (backupPathOf path) = none := by
  have hbp_ne : path ≠ backupPathOf path :=
    string_ne_append_right (by decide)
  have hset : fsLookup (fsSet fs (backupPathOf path) orig) (backupPathOf path) = some orig :=
    fsLookup_set_self fs (backupPathOf path) orig
  unfold processDecryptFile
  rw [h]
  cases hd : (decryptFileM (fsSet fs (backupPathOf path) orig) (path ++ ".gpg") path pass).2
  · have hfs1 : (decryptFileM (fsSet fs (backupPathOf path) orig)
        (path ++ ".gpg") path pass).1 = fsSet fs (backupPathOf path) orig :=
      decryptFileM_fail hd
    simp only [hd, hfs1, hset, if_false, Bool.false_eq_true]
    refine ⟨rfl, ?_, ?_⟩
    · intro _
      exact fsLookup_set_self _ path orig
    · rw [fsLookup_set_ne _ orig hbp_ne, fsLookup_remove_self]
  · simp only [hd, if_true]
    refine ⟨rfl, ?_, ?_⟩
    · intro hx
      cases hx
    · rw [fsLookup_remove_self]

/-- Witness for the C4 theorem: a file whose ciphertext already encloses
the identical plaintext is skipped and counted as a success. -/
theorem encrypt_idempotent_skip_witness :
    processEncryptFile extAllOk
        [(".env.production", .plain "same"),
         (".env.production.gpg", .cipher "pw" (.plain "same"))]
        ".env.production" "pw" =
      ([(".env.production", .plain "same"),
        (".env.production.gpg", .cipher "pw" (.plain "same"))], .skipped,
       [.decryptInvoke ".env.production.gpg" ".env.production.temp",
        .removeTemp ".env.production.temp"]) ∧
    encryptFilesLoop extAllOk
        [(".env.production", .plain "same"),
         (".env.production.gpg", .cipher "pw" (.plain "same"))]
        [".env.production"] "pw" =
      ([(".env.production", .plain "same"),
        (".env.production.gpg", .cipher "pw" (.plain "same"))], 1, 0) :=
  encrypt_idempotent_skip extAllOk
    [(".env.production", .plain "same"),
     (".env.production.gpg", .cipher "pw" (.plain "same"))]
    ".env.production" "pw" (.plain "same") (by decide) (by decide) (by decide) (by decide)

/-- Witness for the C5 amended theorem: a failing decrypt (wrong
passphrase) over an existing plaintext target restores the original
content and leaves no backup behind. -/
theorem decrypt_backup_protocol_witness :
    ((processDecryptFile
        [(".env.production", .plain "precious"),
         (".env.production.gpg", .cipher "pw" (.plain "vault"))]
        ".env.production" "wrong").2.2).head? =
      some (.createBackup ".env.production" ".env.production.backup") ∧
    ((processDecryptFile
        [(".env.production", .plain "precious"),
         (".env.production.gpg", .cipher "pw" (.plain "vault"))]
        ".env.production" "wrong").2.1 = .failed →
      fsLookup (processDecryptFile
        [(".env.production", .plain "precious"),
         (".env.production.gpg", .cipher "pw" (.plain "vault"))]
        ".env.production" "wrong").1 ".env.production" = some (.plain "precious")) ∧
    fsLookup (processDecryptFile
        [(".env.production", .plain "precious"),
         (".env.production.gpg", .cipher "pw" (.plain "vault"))]
        ".env.production" "wrong").1 ".env.production.backup" = none :=
  decrypt_backup_protocol
    [(".env.production", .plain "precious"),
     (".env.production.gpg", .cipher "pw" (.plain "vault"))]
    ".env.production" "wrong" (.plain "precious") (by decide)

/-! Batch processing theorems. -/

/-- C1: for any ordered environment list `[A, B, C]` and any
per-environment operation where B's operation throws, the batch result list
has length 3 in input order: item 1 records B as failed with the thrown
message captured, while items 0 and 2 are exactly the wrappings of A's and
C's own outcomes. -/
theorem batch_order_and_failure_isolation (A B C : String)
    (op : String → Except String OpResult) (msg : String)
    (hB : op B = .error msg) :
    (processBatchOperation [A, B, C] op).1.length = 3 ∧
    (processBatchOperation [A, B, C] op).1[1]? = some ⟨B, false, 0, some msg⟩ ∧
    (processBatchOperation [A, B, C] op).1[0]? = some (wrapItem A (op A)) ∧
    (processBatchOperation [A, B, C] op).1[2]? = some (wrapItem C (op C)) := by
  refine ⟨?_, ?_, ?_, ?_⟩ <;> simp [processBatchOperation, wrapItem, hB]

/-- Witness for C1 at a concrete operation where `beta` throws. -/
theorem batch_order_and_failure_isolation_witness :
    (processBatchOperation ["alpha", "beta", "gamma"] batchWitnessOp).1.length = 3 ∧
    (processBatchOperation ["alpha", "beta", "gamma"] batchWitnessOp).1[1]? =
      some ⟨"beta", false, 0, some "boom"⟩ ∧
    (processBatchOperation ["alpha", "beta", "gamma"] batchWitnessOp).1[0]? =
      some (wrapItem "alpha" (batchWitnessOp "alpha")) ∧
    (processBatchOperation ["alpha", "beta", "gamma"] batchWitnessOp).1[2]? =
      some (wrapItem "gamma" (batchWitnessOp "gamma")) :=
  batch_order_and_failure_isolation "alpha" "beta" "gamma" batchWitnessOp "boom" rfl

/-- C6: combining --all with an explicit environment value or with
interactive mode makes `executeEncrypt` throw the configuration error
immediately — the file system it reports is the untouched input, and no
environment processing happens; with --all alone the all-flag validation
passes and `executeEncrypt` can never throw a configuration error. -/
theorem allFlag_mutual_exclusion (opts : EncryptOpts) (ext : ExtEnv) (fs : FS) :
    (opts.all = true → truthyOpt opts.environment = true →
      executeEncryptM opts ext fs = .threw "Cannot use --all with --environment flag" fs) ∧
    (opts.all = true → truthyOpt opts.environment = false → opts.interactive = true →
      executeEncryptM opts ext fs =
        .threw "Interactive mode is not compatible with --all flag" fs) ∧
    (opts.all = true → truthyOpt opts.environment = false → opts.interactive = false →
      (validateAllFlagOptions
        ⟨true, opts.environment, false, opts.passphrase, opts.secret⟩).valid = true ∧
      ∀ msg fs2, executeEncryptM opts ext fs ≠ .threw msg fs2) := by
  refine ⟨?_, ?_, ?_⟩
  · intro h1 h2
    unfold executeEncryptM
    simp [h1, h2]
  · intro h1 h2 h3
    unfold executeEncryptM
    simp [h1, h2, h3]
  · intro h1 h2 h3
    constructor
    · simp [validateAllFlagOptions, h2]
    · intro msg fs2
      unfold executeEncryptM
      cases hg : ext.gpgAvailable <;>
        cases he : (findAllEnvironments (fsFiles fs)).isEmpty <;>
          (simp [h1, h2, h3, hg, he]; try (split <;> simp))

/-- Witness for C6 at concrete option sets. -/
theorem allFlag_mutual_exclusion_witness :
    executeEncryptM ⟨true, some "production", false, none, none⟩ extAllOk demoFs =
      .threw "Cannot use --all with --environment flag" demoFs ∧
    executeEncryptM ⟨true, none, true, none, none⟩ extAllOk demoFs =
      .threw "Interactive mode is not compatible with --all flag" demoFs ∧
    (validateAllFlagOptions ⟨true, none, false, some "pw", none⟩).valid = true :=
  ⟨(allFlag_mutual_exclusion ⟨true, some "production", false, none, none⟩ extAllOk demoFs).1
      rfl (by decide),
   (allFlag_mutual_exclusion ⟨true, none, true, none, none⟩ extAllOk demoFs).2.1
      rfl rfl rfl,
   ((allFlag_mutual_exclusion ⟨true, none, false, some "pw", none⟩ extAllOk demoFs).2.2
      rfl rfl rfl).1⟩

theorem processAll_errors_spec (opts : EncryptOpts) (ext : ExtEnv) :
    ∀ (envs : List String) (fs : FS),
      ((processAllEnvironmentsM opts ext fs envs).2.2.2 = 0 ↔
        ∀ r ∈ (processAllEnvironmentsM opts ext fs envs).2.1, r.errors = 0) := by
  intro envs
  induction envs with
  | nil =>
    intro fs
    simp [processAllEnvironmentsM]
  | cons env rest ih =>
    intro fs
    unfold processAllEnvironmentsM
    cases hp : processSingleEnvironmentM opts ext fs env with
    | ok v =>
      obtain ⟨fs1, s, e⟩ := v
      simp only [List.mem_cons]
      constructor
      · intro h r hr
        have he : e = 0 := by omega
        have hrest : (processAllEnvironmentsM opts ext fs1 rest).2.2.2 = 0 := by omega
        rcases hr with hr | hr
        · rw [hr]; exact he
        · exact (ih fs1).mp hrest r hr
      · intro h
        have he : e = 0 := h ⟨env, s, e⟩ (Or.inl rfl)
        have hrest : ∀ r ∈ (processAllEnvironmentsM opts ext fs1 rest).2.1, r.errors = 0 :=
          fun r hr => h r (Or.inr hr)
        have := (ih fs1).mpr hrest
        omega
    | error msg =>
      simp only [List.mem_cons]
      constructor
      · intro h
        omega
      · intro h
        have := h ⟨env, 0, 1⟩ (Or.inl rfl)
        cases this


/-- C8: the batch summary's `overallSuccess` is true exactly when no item
failed; the batch loop's accumulated error total is zero exactly when every
per-environment entry has zero errors; under --all (no conflicting flags,
GPG present, environments found) the process exit code is zero exactly when
that total is zero; and the preconditions — GPG missing, or the invalid
combination of --all with --environment — force exit code 1. -/
theorem batch_overall_success_exit (results : List BatchItemResult) (operation : String)
    (opts : EncryptOpts) (ext : ExtEnv) (fs : FS) (envs : List String) :
    ((generateAllEnvironmentsSummary results operation).overallSuccess = true ↔
      ∀ r ∈ results, r.success = true) ∧
    ((processAllEnvironmentsM opts ext fs envs).2.2.2 = 0 ↔
      ∀ r ∈ (processAllEnvironmentsM opts ext fs envs).2.1, r.errors = 0) ∧
    (opts.all = true → truthyOpt opts.environment = false → opts.interactive = false →
      ext.gpgAvailable = true → (findAllEnvironments (fsFiles fs)).isEmpty = false →
      (encryptExitCode opts ext fs = 0 ↔
        (processAllEnvironmentsM opts ext fs (findAllEnvironments (fsFiles fs))).2.2.2 = 0)) ∧
    (ext.gpgAvailable = false → (opts.all && truthyOpt opts.environment) = false →
      (opts.all && opts.interactive) = false → encryptExitCode opts ext fs = 1) ∧
    ((opts.all && truthyOpt opts.environment) = true → encryptExitCode opts ext fs = 1) := by
  refine ⟨?_, processAll_errors_spec opts ext envs fs, ?_, ?_, ?_⟩
  · show ((results.filter fun r => !r.success).length == 0) = true ↔
      ∀ r ∈ results, r.success = true
    rw [beq_iff_eq, List.length_eq_zero, List.filter_eq_nil_iff]
    constructor
    · intro h r hr
      have := h r hr
      simpa using this
    · intro h r hr
      simp [h r hr]
  · intro h1 h2 h3 hg he
    unfold encryptExitCode executeEncryptM
    simp only [h1, h2, h3, hg, he, Bool.and_false, Bool.false_and, Bool.and_true,
      Bool.not_true, if_false, if_true, Bool.true_and]
    by_cases hgt :
      (processAllEnvironmentsM opts ext fs (findAllEnvironments (fsFiles fs))).2.2.2 > 0
    · rw [if_pos hgt]
      show (1 : Nat) = 0 ↔
        (processAllEnvironmentsM opts ext fs (findAllEnvironments (fsFiles fs))).2.2.2 = 0
      omega
    · rw [if_neg hgt]
      show (0 : Nat) = 0 ↔
        (processAllEnvironmentsM opts ext fs (findAllEnvironments (fsFiles fs))).2.2.2 = 0
      omega
  · intro hg h1 h2
    unfold encryptExitCode executeEncryptM
    simp [hg, h1, h2]
  · intro h1
    unfold encryptExitCode executeEncryptM
    simp [h1]

/-- Witness for C8: a two-environment batch where `beta`'s GPG self-test
fails, plus the GPG-missing and conflicting-flags preconditions. -/
theorem batch_overall_success_exit_witness :
    ((generateAllEnvironmentsSummary demoResults "encrypt").overallSuccess = true ↔
      ∀ r ∈ demoResults, r.success = true) ∧
    (encryptExitCode ⟨true, none, false, none, none⟩ extMixed demoFs = 0 ↔
      (processAllEnvironmentsM ⟨true, none, false, none, none⟩ extMixed demoFs
        (findAllEnvironments (fsFiles demoFs))).2.2.2 = 0) ∧
    encryptExitCode ⟨true, none, false, none, none⟩ extNoGpg demoFs = 1 ∧
    encryptExitCode ⟨true, some "production", false, none, none⟩ extMixed demoFs = 1 :=
  ⟨(batch_overall_success_exit demoResults "encrypt" ⟨true, none, false, none, none⟩
      extMixed demoFs []).1,
   (batch_overall_success_exit demoResults "encrypt" ⟨true, none, false, none, none⟩
      extMixed demoFs []).2.2.1 rfl rfl rfl rfl (by decide),
   (batch_overall_success_exit demoResults "encrypt" ⟨true, none, false, none, none⟩
      extNoGpg demoFs []).2.2.2.1 rfl rfl rfl,
   (batch_overall_success_exit demoResults "encrypt" ⟨true, some "production", false, none, none⟩
      extMixed demoFs []).2.2.2.2 (by decide)⟩

/-! Environment-name validation theorems. -/

theorem dropWhile_ne_nil_of_mem {p : Char → Bool} {a : Char} :
    ∀ {l : List Char}, a ∈ l → p a = false → l.dropWhile p ≠ [] := by
  intro l
  induction l with
  | nil => intro h _; cases h
  | cons b bs ih =>
    intro hmem hpa
    rw [List.dropWhile_cons]
    by_cases hb : p b = true
    · rw [if_pos hb]
      rcases List.mem_cons.mp hmem with hab | hab
      · subst hab; rw [hpa] at hb; cases hb
      · exact ih hab hpa
    · rw [if_neg hb]
      intro hx
      cases hx

theorem alpha_not_jsWhitespace {c : Char} (h : c.isAlpha = true) :
    jsWhitespace c = false := by
  simp [Char.isAlpha, Char.isUpper, Char.isLower] at h
  simp [jsWhitespace, jsWhitespaceCodes]
  have hc : c.toNat = c.val.toNat := rfl
  rcases h with ⟨h1, h2⟩ | ⟨h1, h2⟩ <;>
    (have n1 : (65 : UInt32).toNat ≤ c.val.toNat ∨ (97 : UInt32).toNat ≤ c.val.toNat := by
      first | exact Or.inl h1 | exact Or.inr h1
     have n2 : c.val.toNat ≤ (90 : UInt32).toNat ∨ c.val.toNat ≤ (122 : UInt32).toNat := by
      first | exact Or.inl h2 | exact Or.inr h2
     have e1 : (65 : UInt32).toNat = 65 := rfl
     have e2 : (90 : UInt32).toNat = 90 := rfl
     have e3 : (97 : UInt32).toNat = 97 := rfl
     have e4 : (122 : UInt32).toNat = 122 := rfl
     omega)

theorem jsTrim_ne_empty {s : String} {c : Char} {cs : List Char}
    (hdata : s.data = c :: cs) (hw : jsWhitespace c = false) : jsTrim s ≠ "" := by
  intro hx
  rw [string_eq_empty_iff] at hx
  unfold jsTrim at hx
  rw [hdata] at hx
  rw [List.dropWhile_cons, if_neg (by rw [hw]; intro hc; cases hc)] at hx
  have hrev : ((c :: cs).reverse.dropWhile jsWhitespace).reverse ≠ [] := by
    intro hy
    have : (c :: cs).reverse.dropWhile jsWhitespace = [] := by
      have := congrArg List.reverse hy
      simpa using this
    exact dropWhile_ne_nil_of_mem (List.mem_reverse.mpr (List.mem_cons_self c cs)) hw this
  exact hrev hx

theorem validateEnvironmentName_valid_iff (s : String) :
    (validateEnvironmentName s).valid = true ↔ matchesNamePattern s = true := by
  unfold validateEnvironmentName
  by_cases hb : s = "" ∨ jsTrim s = ""
  · rw [if_pos hb]
    constructor
    · intro h; cases h
    · intro hm
      exfalso
      cases hd : s.data with
      | nil =>
        have hfalse : matchesNamePattern s = false := by
          unfold matchesNamePattern
          rw [hd]
        rw [hfalse] at hm
        cases hm
      | cons c cs =>
        have he : matchesNamePattern s = (c.isAlpha && cs.all isNameChar) := by
          unfold matchesNamePattern
          rw [hd]
        rw [he, Bool.and_eq_true] at hm
        rcases hb with hb | hb
        · rw [string_eq_empty_iff, hd] at hb
          cases hb
        · exact jsTrim_ne_empty hd (alpha_not_jsWhitespace hm.1) hb
  · rw [if_neg hb]
    cases hm : matchesNamePattern s
    · rw [if_pos (show (!false) = true from rfl)]
    · rw [if_neg (show ¬((!true) = true) from fun hc => by cases hc)]

theorem matchesNamePattern_iff (s : String) :
    matchesNamePattern s = true ↔
      ∃ c cs, s.data = c :: cs ∧ c.isAlpha = true ∧ cs.all isNameChar = true := by
  cases hd : s.data with
  | nil =>
    constructor
    · intro hm
      have hfalse : matchesNamePattern s = false := by
        unfold matchesNamePattern
        rw [hd]
      rw [hfalse] at hm
      cases hm
    · rintro ⟨c, cs, hdd, _, _⟩
      cases hdd
  | cons c cs =>
    have he : matchesNamePattern s = (c.isAlpha && cs.all isNameChar) := by
      unfold matchesNamePattern
      rw [hd]
    rw [he, Bool.and_eq_true]
    constructor
    · rintro ⟨h1, h2⟩
      exact ⟨c, cs, rfl, h1, h2⟩
    · rintro ⟨c', cs', hdd, h1, h2⟩
      injection hdd with e1 e2
      subst e1
      subst e2
      exact ⟨h1, h2⟩

/-- C9 counterexample: `FileUtils.isValidEnvironmentName` — whose own unit
tests in the sources assert exactly this — accepts `"123env"`, `"-"` and
`"_"`, the very names the claim says are rejected, while the
create-workflow validator rejects `"123env"`; so the claimed single
acceptance rule (must start with a letter) is false for the program. -/
theorem environmentName_counterexample :
    isValidEnvironmentName "123env" = true ∧
    isValidEnvironmentName "-" = true ∧
    isValidEnvironmentName "_" = true ∧
    (validateEnvironmentName "123env").valid = false := by
  decide

/-- C9 (amended): the create-workflow validator accepts exactly the strings
matching `^[a-zA-Z][a-zA-Z0-9_-]*$` (so `123env`, `-` and `_` are rejected
there), while `FileUtils.isValidEnvironmentName` accepts exactly the
non-empty strings of letters, digits, hyphens and underscores, with no
restriction on the first character. -/
theorem environmentName_validators (s : String) :
    ((validateEnvironmentName s).valid = true ↔
      ∃ c cs, s.data = c :: cs ∧ c.isAlpha = true ∧ cs.all isNameChar = true) ∧
    (isValidEnvironmentName s = true ↔ (s.data ≠ [] ∧ s.data.all isNameChar = true)) := by
  constructor
  · rw [validateEnvironmentName_valid_iff, matchesNamePattern_iff]
  · unfold isValidEnvironmentName
    rw [Bool.and_eq_true, Bool.not_eq_true']
    constructor
    · rintro ⟨h1, h2⟩
      refine ⟨?_, h2⟩
      intro hx
      rw [(String.isEmpty_iff s).mpr (string_eq_empty_iff.mpr hx)] at h1
      cases h1
    · rintro ⟨h1, h2⟩
      exact ⟨isEmpty_eq_false_of_ne (fun hx => h1 (string_eq_empty_iff.mp hx)), h2⟩

/-! Path conversion theorems. -/

/-- C10: `getEncryptedPath` appends `".gpg"`; `getDecryptedPath` undoes it
(`getDecryptedPath (getEncryptedPath p) = p` for every path, and exactly
one suffix is removed, as on `"file.gpg.gpg"`); `isEncryptedFile` holds
exactly for strings ending in `".gpg"`; and the test-embedded
`getDecryptionOutputPath` agrees with `getDecryptedPath` everywhere. -/
theorem path_conversion_spec (p : String) :
    getEncryptedPath p = p ++ ".gpg" ∧
    getDecryptedPath (getEncryptedPath p) = p ∧
    (∀ q : String, isEncryptedFile q = true ↔ ∃ r : String, q = r ++ ".gpg") ∧
    (∀ q : String, getDecryptionOutputPath q = getDecryptedPath q) ∧
    getDecryptedPath "file.gpg.gpg" = "file.gpg" := by
  refine ⟨rfl, ?_, ?_, fun q => rfl, by decide⟩
  · unfold getDecryptedPath getEncryptedPath
    have hda : (p ++ ".gpg").data = p.data ++ gpgExt := by
      rw [String.data_append]
      rfl
    rw [if_pos (by rw [hda]; exact List.isSuffixOf_iff_suffix.mpr ⟨p.data, rfl⟩)]
    apply string_eq_iff_data.mpr
    show (p ++ ".gpg").data.take ((p ++ ".gpg").data.length - 4) = p.data
    rw [hda]
    have hlen : (p.data ++ gpgExt).length - 4 = p.data.length := by
      simp [gpgExt]
    rw [hlen, List.take_left]
  · intro q
    unfold isEncryptedFile
    constructor
    · intro h
      obtain ⟨pre, hpre⟩ := List.isSuffixOf_iff_suffix.mp h
      refine ⟨⟨pre⟩, ?_⟩
      apply string_eq_iff_data.mpr
      rw [String.data_append, ← hpre]
      rfl
    · rintro ⟨r, rfl⟩
      apply List.isSuffixOf_iff_suffix.mpr
      refine ⟨r.data, ?_⟩
      rw [String.data_append]
      rfl

end EnvX
